import Mathlib

/-!
Verification of the video_downloader repository's core logic against its
natural-language specification.

The Python source is shallowly embedded: pure string manipulation is
translated to Lean functions over `String`/`List Char`; filesystem state is
an explicit list of entry names or an existence predicate; the external
collaborators (yt-dlp, Playwright, HTTP, `urllib.parse.urljoin`) are oracle
parameters; Python exceptions are `Except` values.  Each definition mirrors
one function of the source (named in its doc comment).
-/

/-! ## Python string primitives (ASCII fragment used by the source) -/

/-- Whether `pat` occurs at the head of `l` (helper for Python `str` tests). -/
def leadsWith : List Char → List Char → Bool
  | [], _ => true
  | _ :: _, [] => false
  | p :: ps, c :: cs => p == c && leadsWith ps cs

/-- Whether `needle` occurs somewhere in `hay` (Python's `needle in hay`). -/
def charsContain (needle : List Char) : List Char → Bool
  | [] => needle.isEmpty
  | c :: cs => leadsWith needle (c :: cs) || charsContain needle cs

/-- Python `needle in hay` on strings. -/
def strContains (hay needle : String) : Bool :=
  charsContain needle.toList hay.toList

/-- Python `s.startswith(pre)`. -/
def pyStartsWith (s pre : String) : Bool :=
  leadsWith pre.toList s.toList

/-- Python `s.endswith(suf)`. -/
def pyEndsWith (s suf : String) : Bool :=
  leadsWith suf.toList.reverse s.toList.reverse

/-- Python `s.lower()` (ASCII case folding, all the source's markers need). -/
def pyLower (s : String) : String :=
  String.mk (s.toList.map Char.toLower)

/-- ASCII whitespace as Python `str.strip` removes it. -/
def isPySpace (c : Char) : Bool :=
  c == ' ' || c == '\t' || c == '\n' || c == '\r' || c == '\x0b' || c == '\x0c'

/-- Python `s.strip()`. -/
def pyStrip (s : String) : String :=
  String.mk (((s.toList.dropWhile isPySpace).reverse.dropWhile isPySpace).reverse)

/-- Index of the last `.` in a character list, scanning left to right. -/
def lastDotPosAux : List Char → Nat → Option Nat → Option Nat
  | [], _, acc => acc
  | c :: rest, i, acc => lastDotPosAux rest (i + 1) (if c == '.' then some i else acc)

/-- Python `PurePath.suffix` of a file name: the part from the last dot,
empty when the dot is first, last or absent. -/
def pySuffix (name : String) : String :=
  let cs := name.toList
  match lastDotPosAux cs 0 none with
  | none => ""
  | some i => if 0 < i && i + 1 < cs.length then String.mk (cs.drop i) else ""

/-- Python `PurePath.stem` of a file name: the name with `pySuffix` removed. -/
def pyStem (name : String) : String :=
  name.dropRight (pySuffix name).length

/-- Python `name.split(".part", 1)[0]`: the prefix of `name` before the
first occurrence of `.part` (the whole name when the marker is absent). -/
def partBaseAux : List Char → List Char
  | [] => []
  | c :: rest => if leadsWith ".part".toList (c :: rest) then [] else c :: partBaseAux rest

/-- The base name before the first `.part` marker. -/
def partBase (name : String) : String :=
  String.mk (partBaseAux name.toList)

/-- Python `str.splitlines` restricted to `\n`, `\r\n` and `\r` (the only
line breaks HLS manifests use); no trailing empty line is produced. -/
def splitlinesAux : List Char → List Char → List String
  | [], acc => if acc.isEmpty then [] else [String.mk acc.reverse]
  | '\r' :: '\n' :: rest, acc => String.mk acc.reverse :: splitlinesAux rest []
  | '\n' :: rest, acc => String.mk acc.reverse :: splitlinesAux rest []
  | '\r' :: rest, acc => String.mk acc.reverse :: splitlinesAux rest []
  | c :: rest, acc => splitlinesAux rest (c :: acc)

/-- Python `s.splitlines()`. -/
def pySplitlines (s : String) : List String :=
  splitlinesAux s.toList []

/-! ## Artifact Manager (`src/file_manager.py`, class FileManager)

A path is its parent directory plus its final name; the three partial
candidates of `_get_partial_paths` live in the same parent.  Filesystem
existence is an oracle `PyPath → Bool`. -/

/-- A filesystem path, split as `pathlib` sees it: parent directory and
final component (`name`). -/
structure PyPath where
  parent : String
  name : String
deriving DecidableEq

/-- The sibling of `p` named `n` (Python `p.with_name`/`with_suffix` target). -/
def PyPath.withSibling (p : PyPath) (n : String) : PyPath :=
  ⟨p.parent, n⟩

/-- `FileManager._get_partial_paths`: `with_suffix(suffix + ".part")`,
`with_suffix(suffix + ".ytdl")` and `with_suffix(".part")`.  When the path
has an empty name, `with_suffix` raises `ValueError`, the method's handler
returns the empty list.  `with_suffix(final.suffix + m)` appends `m` to the
full name; `with_suffix(".part")` replaces the suffix, leaving the stem. -/
def getPartialPaths (p : PyPath) : List PyPath :=
  if p.name = "" then []
  else
    [p.withSibling (p.name ++ ".part"),
     p.withSibling (p.name ++ ".ytdl"),
     p.withSibling (pyStem p.name ++ ".part")]

/-- `FileManager.should_skip_download`: false when the final path is absent,
false when any partial candidate exists (resume), true otherwise.  The
`_cleanup_artifacts` call in the skip branch only deletes sibling files and
does not alter the returned value. -/
def shouldSkipDownload (fs : PyPath → Bool) (p : PyPath) : Bool :=
  if !fs p then false
  else if (getPartialPaths p).any fs then false
  else true

/-! `FileManager.sweep_leftovers` works on one directory: its state is the
list of entry names still present.  A name ending in `.ytdl` is a sidecar
with base `name[:-5]`; otherwise a name containing `.part` is a partial
with base `name.split(".part", 1)[0]`; the branches are checked in that
order, other names are untouched.  A candidate is unlinked exactly when
`(directory / base).exists()` holds at that moment; pathlib drops empty
and `.` path components, so bases `""` and `"."` resolve to the directory
itself, and `".."` resolves to its parent — all of which exist on disk
while the directory is being swept. -/

/-- The sidecar/partial branch selection of `sweep_leftovers` and the base
name it derives, `none` for a name in neither branch. -/
def baseOf (name : String) : Option String :=
  if pyEndsWith name ".ytdl" then some (name.dropRight 5)
  else if strContains name ".part" then some (partBase name)
  else none

/-- Base names for which `directory / base` resolves to the directory
itself (pathlib drops `""` and `"."` components) or to its parent
(`".."`): these exist on disk no matter what the directory contains. -/
def resolvesToAncestor (base : String) : Bool :=
  base = "" || base = "." || base = ".."

/-- `(directory / base).exists()` against the current entry list: a base
resolving to the directory or its parent always exists, any other base is
a sibling file name looked up among the current entries. -/
def dirBaseExists (st : List String) (base : String) : Bool :=
  resolvesToAncestor base || st.contains base

/-- One pass of `sweep_leftovers` over the snapshot `todo` of the listing,
with `st` the entries currently on disk; `unlink` removes the visited entry. -/
def sweepGo : List String → List String → List String
  | [], st => st
  | name :: rest, st =>
    match baseOf name with
    | some base =>
      if dirBaseExists st base then sweepGo rest (st.filter (fun x => x != name))
      else sweepGo rest st
    | none => sweepGo rest st

/-- `FileManager.sweep_leftovers` on a directory whose entries are `listing`
(in iteration order): the entries that survive. -/
def sweepLeftovers (listing : List String) : List String :=
  sweepGo listing listing

/-! ## Theorems for C2 -/

/-- C2: `should_skip_download(p)` returns true if and only if `p` exists and
none of its partial candidates exist; in particular it is false when `p`
does not exist, and false when `p` exists but some partial candidate does. -/
theorem shouldSkip_iff_exists_and_no_partials :
    ∀ (fs : PyPath → Bool) (p : PyPath),
      shouldSkipDownload fs p = true ↔
        (fs p = true ∧ ∀ q ∈ getPartialPaths p, fs q = false) := by
  intro fs p
  unfold shouldSkipDownload
  cases hfp : fs p with
  | false => simp [hfp]
  | true =>
    simp only [hfp, Bool.not_true, Bool.false_eq_true, if_false]
    by_cases hany : (getPartialPaths p).any fs = true
    · simp only [hany, if_true]
      rw [List.any_eq_true] at hany
      obtain ⟨q, hq, hfq⟩ := hany
      constructor
      · intro h; exact absurd h (by simp)
      · rintro ⟨-, hall⟩
        exact absurd hfq (by simp [hall q hq])
    · simp only [hany, if_false]
      rw [List.any_eq_true] at hany
      push_neg at hany
      constructor
      · intro _
        refine ⟨by trivial, fun q hq => ?_⟩
        have := hany q hq
        simpa using this
      · intro _; rfl

/-! ## Theorems for C4 -/

/-- The sweep only ever removes entries: its result is a sublist of the
state it started from. -/
theorem sweepGo_subset : ∀ (todo st : List String), sweepGo todo st ⊆ st := by
  intro todo
  induction todo with
  | nil => intro st; exact fun _ h => h
  | cons x rest ih =>
    intro st
    unfold sweepGo
    cases hbx : baseOf x with
    | none => exact ih st
    | some base =>
      by_cases hex : dirBaseExists st base = true
      · simp only [hex, if_true]
        exact fun a ha => (List.mem_filter.mp (ih _ ha)).1
      · simp only [Bool.not_eq_true] at hex
        simp only [hex, Bool.false_eq_true, if_false]
        exact ih st

/-- An entry still on disk whose branch never fires (not a sidecar/partial)
or whose base name does not resolve to the directory or its parent and is
absent among the entries survives the whole sweep pass. -/
theorem sweepGo_keep : ∀ (todo st : List String) (name : String),
    name ∈ st →
    (baseOf name = none ∨
      ∃ b, baseOf name = some b ∧ resolvesToAncestor b = false ∧ b ∉ st) →
    name ∈ sweepGo todo st := by
  intro todo
  induction todo with
  | nil => intro st name hmem _; exact hmem
  | cons x rest ih =>
    intro st name hmem hcond
    unfold sweepGo
    cases hbx : baseOf x with
    | none => exact ih st name hmem hcond
    | some base =>
      by_cases hex : dirBaseExists st base = true
      · simp only [hex, if_true]
        have hne : name ≠ x := by
          intro h
          subst h
          rcases hcond with hnone | ⟨b, hb, hbanc, hbnot⟩
          · rw [hnone] at hbx; exact Option.noConfusion hbx
          · rw [hb] at hbx
            injection hbx with hbb
            subst hbb
            unfold dirBaseExists at hex
            rcases Bool.or_eq_true_iff.mp hex with h1 | h2
            · rw [hbanc] at h1; exact Bool.false_ne_true h1
            · exact hbnot (by simpa using h2)
        refine ih _ name ?_ ?_
        · exact List.mem_filter.mpr ⟨hmem, by simp [hne]⟩
        · rcases hcond with hnone | ⟨b, hb, hbanc, hbnot⟩
          · exact Or.inl hnone
          · exact Or.inr ⟨b, hb, hbanc, fun hbmem => hbnot (List.mem_filter.mp hbmem).1⟩
      · simp only [Bool.not_eq_true] at hex
        simp only [hex, Bool.false_eq_true, if_false]
        exact ih st name hmem hcond

/-- A visited sidecar/partial entry whose derived base name resolves to
the directory itself (`""`, `"."`) or to its parent (`".."`) is always
unlinked: those paths exist regardless of the directory's entries. -/
theorem sweepGo_delete_of_ancestor_base : ∀ (todo st : List String) (name b : String),
    name ∈ todo → baseOf name = some b → resolvesToAncestor b = true →
    name ∉ sweepGo todo st := by
  intro todo
  induction todo with
  | nil => intro st name b hmem _ _; exact absurd hmem (List.not_mem_nil name)
  | cons x rest ih =>
    intro st name b hmem hbase hanc
    rcases List.mem_cons.mp hmem with heq | hrest
    · subst heq
      unfold sweepGo
      rw [hbase]
      have hex : dirBaseExists st b = true := by
        unfold dirBaseExists
        rw [hanc]
        rfl
      simp only [hex, if_true]
      intro hmem2
      have := sweepGo_subset rest _ hmem2
      have := List.mem_filter.mp this
      simp at this
    · unfold sweepGo
      cases hbx : baseOf x with
      | none => exact ih st name b hrest hbase hanc
      | some base =>
        by_cases hex : dirBaseExists st base = true
        · simp only [hex, if_true]; exact ih _ name b hrest hbase hanc
        · simp only [Bool.not_eq_true] at hex
          simp only [hex, Bool.false_eq_true, if_false]
          exact ih st name b hrest hbase hanc

/-- A visited sidecar/partial entry whose base file survives the whole
sweep is always unlinked (the base existed when the entry was examined). -/
theorem sweepGo_delete_of_surviving_base : ∀ (todo st : List String) (name b : String),
    name ∈ todo → baseOf name = some b → b ∈ sweepGo todo st → name ∉ sweepGo todo st := by
  intro todo
  induction todo with
  | nil => intro st name b hmem _ _; exact absurd hmem (List.not_mem_nil name)
  | cons x rest ih =>
    intro st name b hmem hbase hbsurv
    rcases List.mem_cons.mp hmem with heq | hrest
    · subst heq
      unfold sweepGo at hbsurv ⊢
      rw [hbase] at hbsurv ⊢
      by_cases hex : dirBaseExists st b = true
      · simp only [hex, if_true]
        intro hmem2
        have := sweepGo_subset rest _ hmem2
        have := List.mem_filter.mp this
        simp at this
      · simp only [Bool.not_eq_true] at hex
        simp only [hex, Bool.false_eq_true, if_false] at hbsurv ⊢
        have hbst : b ∈ st := sweepGo_subset rest st hbsurv
        unfold dirBaseExists at hex
        rcases Bool.or_eq_false_iff.mp hex with ⟨-, h2⟩
        exact absurd hbst (by simpa using h2)
    · unfold sweepGo at hbsurv ⊢
      cases hbx : baseOf x with
      | none =>
        rw [hbx] at hbsurv
        exact ih st name b hrest hbase hbsurv
      | some base =>
        rw [hbx] at hbsurv
        by_cases hex : dirBaseExists st base = true
        · simp only [hex, if_true] at hbsurv ⊢
          exact ih _ name b hrest hbase hbsurv
        · simp only [Bool.not_eq_true] at hex
          simp only [hex, Bool.false_eq_true, if_false] at hbsurv ⊢
          exact ih st name b hrest hbase hbsurv

/-- C4 (amended): the sweep deletes no entry whose derived base name is an
ordinary sibling name (not `""`, `"."` or `".."`) absent from the
directory, and leaves non-sidecar/non-partial entries untouched; it always
deletes an entry whose derived base name is `""`, `"."` or `".."` (pathlib
resolves those to the directory itself or its parent, which exist — e.g. a
file named `.part`, `..ytdl` or `...ytdl`), and always deletes a
sidecar/partial entry whose base file survives the sweep.  An entry whose
base file was present initially but was itself deleted earlier in the same
pass may survive (see the counterexample to the original claim). -/
theorem sweep_deletion_characterization :
    ∀ (listing : List String) (name b : String),
      (∀ x ∈ sweepLeftovers listing, x ∈ listing) ∧
      (name ∈ listing → baseOf name = none → name ∈ sweepLeftovers listing) ∧
      (name ∈ listing → baseOf name = some b → b ≠ "" → b ≠ "." → b ≠ ".." →
        b ∉ listing → name ∈ sweepLeftovers listing) ∧
      (name ∈ listing → baseOf name = some b → (b = "" ∨ b = "." ∨ b = "..") →
        name ∉ sweepLeftovers listing) ∧
      (name ∈ listing → baseOf name = some b → b ∈ sweepLeftovers listing →
        name ∉ sweepLeftovers listing) := by
  intro listing name b
  refine ⟨fun x hx => sweepGo_subset listing listing hx, ?_, ?_, ?_, ?_⟩
  · intro hmem hnone
    exact sweepGo_keep listing listing name hmem (Or.inl hnone)
  · intro hmem hbase hb1 hb2 hb3 hbnot
    have hanc : resolvesToAncestor b = false := by
      unfold resolvesToAncestor
      simp [hb1, hb2, hb3]
    exact sweepGo_keep listing listing name hmem (Or.inr ⟨b, hbase, hanc, hbnot⟩)
  · intro hmem hbase hsp
    have hanc : resolvesToAncestor b = true := by
      unfold resolvesToAncestor
      rcases hsp with h | h | h <;> simp [h]
    exact sweepGo_delete_of_ancestor_base listing listing name b hmem hbase hanc
  · intro hmem hbase hbsurv
    exact sweepGo_delete_of_surviving_base listing listing name b hmem hbase hbsurv

/-- Concrete instances of the amended C4 theorem: a plain file and a
partial file with absent ordinary base survive; a partial named `.part`
(base `""`), a sidecar named `..ytdl` (base `"."`) and a sidecar whose
base file survives are deleted. -/
theorem sweep_deletion_characterization_witness :
    "note.txt" ∈
      sweepLeftovers ["a.mp4", "a.mp4.ytdl", "b.part", ".part", "..ytdl", "note.txt"] ∧
    "b.part" ∈
      sweepLeftovers ["a.mp4", "a.mp4.ytdl", "b.part", ".part", "..ytdl", "note.txt"] ∧
    ".part" ∉
      sweepLeftovers ["a.mp4", "a.mp4.ytdl", "b.part", ".part", "..ytdl", "note.txt"] ∧
    "..ytdl" ∉
      sweepLeftovers ["a.mp4", "a.mp4.ytdl", "b.part", ".part", "..ytdl", "note.txt"] ∧
    "a.mp4.ytdl" ∉
      sweepLeftovers ["a.mp4", "a.mp4.ytdl", "b.part", ".part", "..ytdl", "note.txt"] := by
  refine ⟨?_, ?_, ?_, ?_, ?_⟩
  · exact (sweep_deletion_characterization
      ["a.mp4", "a.mp4.ytdl", "b.part", ".part", "..ytdl", "note.txt"] "note.txt" "").2.1
      (by decide) (by decide)
  · exact (sweep_deletion_characterization
      ["a.mp4", "a.mp4.ytdl", "b.part", ".part", "..ytdl", "note.txt"] "b.part" "b").2.2.1
      (by decide) (by decide) (by decide) (by decide) (by decide) (by decide)
  · exact (sweep_deletion_characterization
      ["a.mp4", "a.mp4.ytdl", "b.part", ".part", "..ytdl", "note.txt"] ".part" "").2.2.2.1
      (by decide) (by decide) (Or.inl rfl)
  · exact (sweep_deletion_characterization
      ["a.mp4", "a.mp4.ytdl", "b.part", ".part", "..ytdl", "note.txt"] "..ytdl" ".").2.2.2.1
      (by decide) (by decide) (Or.inr (Or.inl rfl))
  · exact (sweep_deletion_characterization
      ["a.mp4", "a.mp4.ytdl", "b.part", ".part", "..ytdl", "note.txt"]
        "a.mp4.ytdl" "a.mp4").2.2.2.2
      (by decide) (by decide)
      ((sweep_deletion_characterization
        ["a.mp4", "a.mp4.ytdl", "b.part", ".part", "..ytdl", "note.txt"] "a.mp4" "").2.1
        (by decide) (by decide))

/-- Counterexample to C4 as stated: in a directory listed as
`v`, `v.part`, `v.part.ytdl`, the sidecar `v.part.ytdl` has its base file
`v.part` present in the directory, yet it is not deleted — the sweep first
deletes `v.part` (base `v` exists), so when `v.part.ytdl` is examined its
base no longer exists and it is left behind. -/
theorem sweep_counterexample_original :
    sweepLeftovers ["v", "v.part", "v.part.ytdl"] = ["v", "v.part.ytdl"] ∧
    baseOf "v.part.ytdl" = some "v.part" ∧
    "v.part" ∈ ["v", "v.part", "v.part.ytdl"] ∧
    "v.part.ytdl" ∈ sweepLeftovers ["v", "v.part", "v.part.ytdl"] := by
  refine ⟨by decide, by decide, by decide, by decide⟩

/-! ## Manifest DRM Analyzer (`src/playwright_capture.py`)

`_http_get_text` (HTTP GET returning `None` on a transport failure or a
status of 400 or more) is the oracle `fetch`; `urllib.parse.urljoin` is the
oracle `ujoin`.  `detect_drm_in_m3u8` is embedded together with the list of
URLs it fetches, in order, so the number of fetches is part of the model. -/

/-- The variant-manifest inspection block of `detect_drm_in_m3u8`
(lines 118–129): only entered content-wise when the lowered variant text
contains `#ext-x-key`; inside, `sample-aes`, FairPlay and Widevine markers
flag DRM, `aes-128` is flagged but not DRM; anything else is not DRM. -/
def variantClassify (vbody : String) : Bool × Option String :=
  let vlow := pyLower vbody
  if strContains vlow "#ext-x-key" then
    if strContains vlow "sample-aes" then (true, some "SAMPLE-AES")
    else if strContains vlow "com.apple.fps" || strContains vlow "fairplay" then
      (true, some "FairPlay")
    else if strContains vlow "com.widevine.alpha" || strContains vlow "widevine" then
      (true, some "Widevine")
    else if strContains vlow "aes-128" then (false, some "AES-128")
    else (false, none)
  else (false, none)

/-- The variant-URL search of `detect_drm_in_m3u8` (lines 96–102): the
first stripped line that is nonempty, no comment, and ends in `.m3u8`. -/
def firstVariantLine : List String → Option String
  | [] => none
  | line :: rest =>
    let l := pyStrip line
    if l = "" then firstVariantLine rest
    else if pyStartsWith l "#" then firstVariantLine rest
    else if pyEndsWith l ".m3u8" then some l
    else firstVariantLine rest

/-- `PlaywrightCapture.detect_drm_in_m3u8`: the classification result and
the list of URLs fetched, in order.  `if not root` treats both a failed
fetch and an empty body as unfetchable. -/
def detectDrmInM3u8 (fetch : String → Option String) (ujoin : String → String → String)
    (manifestUrl : String) : (Bool × Option String) × List String :=
  match fetch manifestUrl with
  | none => ((false, none), [manifestUrl])
  | some root =>
    if root = "" then ((false, none), [manifestUrl])
    else
      let lower := pyLower root
      if strContains lower "#ext-x-session-key" && strContains lower "sample-aes" then
        ((true, some "SAMPLE-AES(session)"), [manifestUrl])
      else if strContains lower "com.apple.fps" || strContains lower "fairplay" then
        ((true, some "FairPlay"), [manifestUrl])
      else if strContains lower "com.widevine.alpha" || strContains lower "widevine" then
        ((true, some "Widevine"), [manifestUrl])
      else
        match firstVariantLine (pySplitlines root) with
        | none =>
          if strContains lower "#ext-x-key" then
            if strContains lower "sample-aes" then ((true, some "SAMPLE-AES"), [manifestUrl])
            else if strContains lower "aes-128" then ((false, some "AES-128"), [manifestUrl])
            else ((false, none), [manifestUrl])
          else ((false, none), [manifestUrl])
        | some rel =>
          let vurl := ujoin manifestUrl rel
          match fetch vurl with
          | none => ((false, none), [manifestUrl, vurl])
          | some v =>
            if v = "" then ((false, none), [manifestUrl, vurl])
            else (variantClassify v, [manifestUrl, vurl])

/-! ## Theorems for C5 -/

/-- C5: the DRM analyzer's four reference cases.  An unfetchable URL yields
`(false, none)`; a body holding both the session-key tag and the
`SAMPLE-AES` marker yields `(true, "SAMPLE-AES(session)")`; the reference
single-level body whose only key tag is `#EXT-X-KEY` with `AES-128` yields
`(false, "AES-128")`; the reference body with no key tags yields
`(false, none)`. -/
theorem detectDrm_reference_cases :
    (∀ (fetch : String → Option String) (ujoin : String → String → String) (url : String),
      fetch url = none → detectDrmInM3u8 fetch ujoin url = ((false, none), [url])) ∧
    (∀ (fetch : String → Option String) (ujoin : String → String → String)
        (url root : String),
      fetch url = some root → root ≠ "" →
      strContains (pyLower root) "#ext-x-session-key" = true →
      strContains (pyLower root) "sample-aes" = true →
      detectDrmInM3u8 fetch ujoin url = ((true, some "SAMPLE-AES(session)"), [url])) ∧
    (detectDrmInM3u8 (fun _ => some "#EXTM3U\n#EXT-X-KEY:METHOD=AES-128\nvideo.ts")
        (fun _ r => r) "https://example.com/playlist.m3u8" =
      ((false, some "AES-128"), ["https://example.com/playlist.m3u8"])) ∧
    (detectDrmInM3u8 (fun _ => some "#EXTM3U\n#EXTINF:10.0\nvideo.ts")
        (fun _ r => r) "https://example.com/playlist.m3u8" =
      ((false, none), ["https://example.com/playlist.m3u8"])) := by
  refine ⟨?_, ?_, by decide, by decide⟩
  · intro fetch ujoin url h
    unfold detectDrmInM3u8
    rw [h]
  · intro fetch ujoin url root h hne hsess hsamp
    unfold detectDrmInM3u8
    rw [h]
    simp only [hne, if_false, hsess, hsamp, Bool.and_self, if_true]

/-- Concrete instances of the two quantified reference cases of C5. -/
theorem detectDrm_reference_cases_witness :
    detectDrmInM3u8 (fun _ => none) (fun _ r => r) "https://example.com/playlist.m3u8" =
      ((false, none), ["https://example.com/playlist.m3u8"]) ∧
    detectDrmInM3u8 (fun _ => some "#EXTM3U\n#EXT-X-SESSION-KEY:METHOD=SAMPLE-AES\nvideo.ts")
        (fun _ r => r) "https://example.com/playlist.m3u8" =
      ((true, some "SAMPLE-AES(session)"), ["https://example.com/playlist.m3u8"]) := by
  constructor
  · exact detectDrm_reference_cases.1 (fun _ => none) (fun _ r => r)
      "https://example.com/playlist.m3u8" rfl
  · exact detectDrm_reference_cases.2.1 (fun _ => some "#EXTM3U\n#EXT-X-SESSION-KEY:METHOD=SAMPLE-AES\nvideo.ts")
      (fun _ r => r) "https://example.com/playlist.m3u8"
      "#EXTM3U\n#EXT-X-SESSION-KEY:METHOD=SAMPLE-AES\nvideo.ts"
      rfl (by decide) (by decide) (by decide)

/-! ## Theorems for C6 -/

/-- A concrete fetch oracle: the master manifest is a single variant
reference, every other URL serves a variant body whose only marker is the
FairPlay system id `com.apple.fps`, with no `#EXT-X-KEY` tag. -/
def cexFetch : String → Option String := fun u =>
  if u = "https://ex.com/master.m3u8" then some "v.m3u8"
  else some "#EXTM3U\ncom.apple.fps.1_0"

/-- `urljoin` on the counterexample's inputs: `v.m3u8` resolved against
`https://ex.com/master.m3u8` is `https://ex.com/v.m3u8`. -/
def cexJoin : String → String → String := fun _ rel => "https://ex.com/" ++ rel

/-- Counterexample to C6 as stated: the fetched variant manifest contains a
FairPlay marker, yet the analyzer classifies the stream as not DRM, because
the variant inspection is gated on the `#ext-x-key` substring, which this
variant body lacks — it is not the same tag inspection as steps 2–4 on the
master. -/
theorem detectDrm_variant_fairplay_counterexample :
    detectDrmInM3u8 cexFetch cexJoin "https://ex.com/master.m3u8" =
      ((false, none), ["https://ex.com/master.m3u8", "https://ex.com/v.m3u8"]) ∧
    cexFetch "https://ex.com/v.m3u8" = some "#EXTM3U\ncom.apple.fps.1_0" ∧
    strContains (pyLower "#EXTM3U\ncom.apple.fps.1_0") "com.apple.fps" = true ∧
    strContains (pyLower "#EXTM3U\ncom.apple.fps.1_0") "#ext-x-key" = false := by
  refine ⟨by decide, by decide, by decide, by decide⟩

/-- C6 (amended): for a master manifest with no master-level DRM marker
whose body has a non-comment line ending in `.m3u8`, the analyzer resolves
the first such line against the original manifest URL, fetches exactly that
one variant manifest and nothing deeper (the fetch trace is the master URL
followed by the resolved variant URL), and classifies by the variant rules:
only when the variant contains `#EXT-X-KEY` are `SAMPLE-AES`, FairPlay,
Widevine and `AES-128` markers consulted; a variant without `#EXT-X-KEY`
yields `(false, none)` even if it contains a FairPlay or Widevine marker. -/
theorem detectDrm_master_variant_single_hop :
    ∀ (fetch : String → Option String) (ujoin : String → String → String)
      (url root rel v : String),
      fetch url = some root → root ≠ "" →
      (strContains (pyLower root) "#ext-x-session-key"
        && strContains (pyLower root) "sample-aes") = false →
      (strContains (pyLower root) "com.apple.fps"
        || strContains (pyLower root) "fairplay") = false →
      (strContains (pyLower root) "com.widevine.alpha"
        || strContains (pyLower root) "widevine") = false →
      firstVariantLine (pySplitlines root) = some rel →
      fetch (ujoin url rel) = some v → v ≠ "" →
      detectDrmInM3u8 fetch ujoin url = (variantClassify v, [url, ujoin url rel]) := by
  intro fetch ujoin url root rel v h1 h2 h3 h4 h5 h6 h7 h8
  unfold detectDrmInM3u8
  rw [h1]
  simp only [if_neg h2, h3, h4, h5, Bool.false_eq_true, if_false, h6]
  rw [h7]
  simp only [if_neg h8]

/-- The amended C6 theorem applied to the counterexample's oracles: one
master fetch, one variant fetch, classification by the variant rules. -/
theorem detectDrm_master_variant_single_hop_witness :
    detectDrmInM3u8 cexFetch cexJoin "https://ex.com/master.m3u8" =
      (variantClassify "#EXTM3U\ncom.apple.fps.1_0",
        ["https://ex.com/master.m3u8", "https://ex.com/v.m3u8"]) :=
  detectDrm_master_variant_single_hop cexFetch cexJoin
    "https://ex.com/master.m3u8" "v.m3u8" "v.m3u8" "#EXTM3U\ncom.apple.fps.1_0"
    (by decide) (by decide) (by decide) (by decide) (by decide) (by decide)
    (by decide) (by decide)

/-! ## Download Orchestrator (`src/downloader.py`, class VideoDownloader)

A per-URL environment carries what the outside world does on this call:
the `urlparse` results for the (stripped) URL, whether `mkdir` raises, what
`_download_with_ytdl` returns or raises (it catches `DownloadError` itself
— an unsupported URL is `ok none` — and lets any other exception through),
and what `attempt_browser_download`'s body would return if it were ever
entered.  `RunState` is the orchestrator's observable state: the
`domain_stats` dict, the directories created, and how many times the
primary engine and the browser engine's body actually ran. -/

/-- A Python exception value. -/
inductive PyExc
  | typeError (msg : String)
  | exc (msg : String)

/-- A path returned by an engine: its `stem` and whether `.exists()` holds. -/
structure SavedFile where
  stem : String
  onDisk : Bool
deriving DecidableEq

/-- One entry of `domain_stats`: the dict `{"total": _, "success": _}`. -/
structure Stats where
  total : Nat
  success : Nat
deriving DecidableEq

/-- External behavior of one `download_video` call. -/
structure UrlEnv where
  scheme : String
  netloc : String
  mkdirRes : Except PyExc Unit
  ytdlRes : Except PyExc (Option SavedFile)
  browserRes : Option SavedFile

/-- Ordered association list: Python dict lookup. -/
def alGet {α : Type} : List (String × α) → String → Option α
  | [], _ => none
  | (k, v) :: rest, d => if k = d then some v else alGet rest d

/-- Ordered association list: Python dict store, insertion order kept. -/
def alSet {α : Type} : List (String × α) → String → α → List (String × α)
  | [], d, v => [(d, v)]
  | (k, w) :: rest, d, v =>
    if k = d then (k, v) :: rest else (k, w) :: alSet rest d v

/-- The orchestrator's observable state. -/
structure RunState where
  stats : List (String × Stats)
  dirsCreated : List String
  primaryCalls : Nat
  browserEngineCalls : Nat

/-- The keyword parameters of `PlaywrightCapture.attempt_browser_download`
(`self` excluded), each with whether it has a default value
(`src/playwright_capture.py` lines 336–343). -/
def attemptBrowserDownloadParams : List (String × Bool) :=
  [("url", false), ("browser", false), ("resolved_profile", false),
   ("output_dir", false), ("wait_timeout_sec", true)]

/-- The keyword arguments `VideoDownloader._download_with_playwright`
passes at the call site (`src/downloader.py` lines 155–160). -/
def playwrightCallKwargs : List String :=
  ["url", "resolved_profile", "output_dir", "wait_timeout_sec"]

/-- Python call binding for a keyword-only call: every parameter without a
default is supplied and no unexpected keyword is passed; otherwise the call
raises `TypeError` before the function body runs. -/
def kwargsBindOk (params : List (String × Bool)) (kwargs : List String) : Bool :=
  params.all (fun p => p.2 || kwargs.contains p.1)
    && kwargs.all (fun k => params.any (fun p => p.1 == k))

/-- `VideoDownloader._download_with_playwright`: resolves the profile, then
evaluates `attempt_browser_download(url=..., resolved_profile=...,
output_dir=..., wait_timeout_sec=180)`.  When the keyword binding fails the
call raises `TypeError`, the method's `except Exception` handler returns
`None` and the engine body never runs; when it binds, the engine body runs
once (it catches its own exceptions) and the result is returned when it
exists on disk. -/
def downloadWithPlaywright (env : UrlEnv) (st : RunState) : Option SavedFile × RunState :=
  if kwargsBindOk attemptBrowserDownloadParams playwrightCallKwargs then
    let st1 := { st with browserEngineCalls := st.browserEngineCalls + 1 }
    match env.browserRes with
    | some f => if f.onDisk then (some f, st1) else (none, st1)
    | none => (none, st1)
  else
    (none, st)

/-- The `try` block of `VideoDownloader.download_video`: validate the URL,
create the domain directory, bump `domain_stats[domain]["total"]`, sweep
(internally guarded, never raises), run the primary engine, fall back to
the browser path when it returned `None`, and count a success only for a
result that exists on disk. -/
def downloadVideoTry (env : UrlEnv) (st : RunState) :
    Except PyExc (Option SavedFile) × RunState :=
  if env.scheme = "" ∨ env.netloc = "" then (Except.ok none, st)
  else
    match env.mkdirRes with
    | Except.error e => (Except.error e, st)
    | Except.ok _ =>
      let domain := env.netloc
      let st1 := { st with dirsCreated := st.dirsCreated ++ [domain] }
      let cur := (alGet st1.stats domain).getD ⟨0, 0⟩
      let st2 := { st1 with stats := alSet st1.stats domain ⟨cur.total + 1, cur.success⟩ }
      match env.ytdlRes with
      | Except.error e =>
        (Except.error e, { st2 with primaryCalls := st2.primaryCalls + 1 })
      | Except.ok r =>
        let st3 := { st2 with primaryCalls := st2.primaryCalls + 1 }
        let res :=
          match r with
          | some f => (some f, st3)
          | none => downloadWithPlaywright env st3
        match res.1 with
        | some f =>
          if f.onDisk then
            let cur2 := (alGet res.2.stats domain).getD ⟨0, 0⟩
            (Except.ok (some f),
              { res.2 with stats := alSet res.2.stats domain ⟨cur2.total, cur2.success + 1⟩ })
          else (Except.ok none, res.2)
        | none => (Except.ok none, res.2)

/-- `VideoDownloader.download_video` with its outer `except Exception`
handler: an exception escaping the try block is logged and mapped to
`None`. -/
def downloadVideoE (env : UrlEnv) (st : RunState) :
    Except PyExc (Option SavedFile) × RunState :=
  match downloadVideoTry env st with
  | (Except.ok v, st1) => (Except.ok v, st1)
  | (Except.error _, st1) => (Except.ok none, st1)

/-- `download_video`'s value as its caller sees it. -/
def downloadVideo (env : UrlEnv) (st : RunState) : Option SavedFile × RunState :=
  match downloadVideoE env st with
  | (Except.ok v, st1) => (v, st1)
  | (Except.error _, st1) => (none, st1)

/-! Spec-side characterizations, proved equal to the embedded code. -/

/-- Whether this call reaches the `total` increment: the URL is valid and
`mkdir` succeeds. -/
def specAttempt (env : UrlEnv) : Bool :=
  if env.scheme = "" ∨ env.netloc = "" then false
  else match env.mkdirRes with
    | Except.ok _ => true
    | Except.error _ => false

/-- The value `download_video` returns for this environment.  The
`Except.ok none` (primary engine reports no file, unsupported URL
included) case yields `none` because the browser fallback's call never
binds (see `kwargsBindOk`). -/
def specOutcome (env : UrlEnv) : Option SavedFile :=
  if env.scheme = "" ∨ env.netloc = "" then none
  else match env.mkdirRes with
    | Except.error _ => none
    | Except.ok _ =>
      match env.ytdlRes with
      | Except.error _ => none
      | Except.ok (some f) => if f.onDisk then some f else none
      | Except.ok none => none

/-- The state `download_video` leaves for this environment. -/
def stepState (env : UrlEnv) (st : RunState) : RunState :=
  if specAttempt env then
    let domain := env.netloc
    let cur := (alGet st.stats domain).getD ⟨0, 0⟩
    let stats1 := alSet st.stats domain ⟨cur.total + 1, cur.success⟩
    let stats2 :=
      match specOutcome env with
      | some _ =>
        let cur2 := (alGet stats1 domain).getD ⟨0, 0⟩
        alSet stats1 domain ⟨cur2.total, cur2.success + 1⟩
      | none => stats1
    { stats := stats2, dirsCreated := st.dirsCreated ++ [domain],
      primaryCalls := st.primaryCalls + 1,
      browserEngineCalls := st.browserEngineCalls }
  else st

/-- The call site omits the required positional parameter `browser`, so the
keyword binding of `attempt_browser_download` fails. -/
theorem kwargsBind_missing_browser :
    kwargsBindOk attemptBrowserDownloadParams playwrightCallKwargs = false := by
  decide

/-- The browser path always returns `None` without entering the engine. -/
theorem downloadWithPlaywright_eq (env : UrlEnv) (st : RunState) :
    downloadWithPlaywright env st = (none, st) := by
  unfold downloadWithPlaywright
  rw [kwargsBind_missing_browser]
  simp

/-- `download_video` computes `specOutcome` and `stepState`. -/
theorem downloadVideoE_run (env : UrlEnv) (st : RunState) :
    downloadVideoE env st = (Except.ok (specOutcome env), stepState env st) := by
  unfold downloadVideoE downloadVideoTry stepState specAttempt specOutcome
  by_cases h : env.scheme = "" ∨ env.netloc = ""
  · simp [h]
  · cases hmk : env.mkdirRes with
    | error e => simp [h, hmk]
    | ok u =>
      cases hyt : env.ytdlRes with
      | error e => simp [h, hmk, hyt]
      | ok r =>
        cases r with
        | none => simp [h, hmk, hyt, downloadWithPlaywright_eq]
        | some f =>
          cases hf : f.onDisk with
          | false => simp [h, hmk, hyt, hf]
          | true => simp [h, hmk, hyt, hf]

/-! ## Batch Controller (`VideoDownloader.download_videos` and
`_create_titles_files`)

A batch item is the raw URL string plus that call's environment.  The
`urls` argument is a Python iterable: a list can be traversed twice, a
generator is exhausted by the first traversal — `download_videos` first
evaluates `len(list(urls))` for its log line and then iterates `urls`
again. -/

/-- One URL of the batch with its external behavior; the environment's
`scheme`/`netloc` are the `urlparse` results of the stripped URL. -/
abbrev BatchItem := String × UrlEnv

/-- A Python iterable of URLs as `download_videos` can receive it. -/
inductive PyIterable
  | pylist (l : List BatchItem)
  | pygen (l : List BatchItem)

/-- What `list(urls)` yields (consuming a generator). -/
def iterItems : PyIterable → List BatchItem
  | PyIterable.pylist l => l
  | PyIterable.pygen l => l

/-- What the `for url in urls` loop sees after `list(urls)` already ran:
the list again, or the exhausted generator. -/
def iterAfterList : PyIterable → List BatchItem
  | PyIterable.pylist l => l
  | PyIterable.pygen _ => []

/-- The key of `downloaded_files`: `urlparse(url).netloc or
"unknown-domain"`. -/
def itemDomain (env : UrlEnv) : String :=
  if env.netloc = "" then "unknown-domain" else env.netloc

/-- The loop body of `download_videos` over the remaining items: strip the
URL, skip blanks, call `download_video`, and append the result's stem to
`downloaded_files[domain]` on success.  Returns the final state, the
`downloaded_files` dict, and the stripped URLs passed to `download_video`
in order. -/
def processItems : List BatchItem → RunState → List (String × List String) →
    RunState × List (String × List String) × List String
  | [], st, df => (st, df, [])
  | (raw, env) :: rest, st, df =>
    let u := pyStrip raw
    if u = "" then processItems rest st df
    else
      let r := downloadVideo env st
      let df1 :=
        match r.1 with
        | some f =>
          alSet df (itemDomain env) (((alGet df (itemDomain env)).getD []) ++ [f.stem])
        | none => df
      let out := processItems rest r.2 df1
      (out.1, out.2.1, u :: out.2.2)

/-- `"\n".join(files) + "\n"`. -/
def joinLines (files : List String) : String :=
  String.intercalate "\n" files ++ "\n"

/-- `VideoDownloader._create_titles_files`: for every domain of
`downloaded_files` whose statistics show `total > 0` and
`success == total`, the content written (overwriting) to that domain's
`titles.txt`. -/
def createTitlesFiles (stats : List (String × Stats))
    (df : List (String × List String)) : List (String × String) :=
  df.filterMap fun kv =>
    let s := (alGet stats kv.1).getD ⟨0, 0⟩
    if 0 < s.total ∧ s.success = s.total then some (kv.1, joinLines kv.2) else none

/-- `VideoDownloader.download_videos`: `len(list(urls))` is computed first
(for the log line), the loop then iterates what is left of the iterable;
afterwards the titles files are written.  Returns the final state, the
titles files written as (domain, content), and the processed URL trace. -/
def downloadVideosRun (urls : PyIterable) (st : RunState) :
    RunState × List (String × String) × List String :=
  let _count := (iterItems urls).length
  let out := processItems (iterAfterList urls) st []
  (out.1, createTitlesFiles out.1.stats out.2.1, out.2.2)

/-- `VideoDownloader.__init__`: `domain_stats` starts empty, nothing ran. -/
def freshState : RunState := ⟨[], [], 0, 0⟩

/-! Spec-side batch aggregates. -/

/-- The stems of the files the run saves for domain `d`, in order. -/
def specSavedStems (items : List BatchItem) (d : String) : List String :=
  items.filterMap fun it =>
    if pyStrip it.1 = "" then none
    else
      match specOutcome it.2 with
      | some f => if itemDomain it.2 = d then some f.stem else none
      | none => none

/-- How often `domain_stats[d]["success"]` is incremented by the run. -/
def specSucceeded (items : List BatchItem) (d : String) : Nat :=
  (specSavedStems items d).length

/-- How often `domain_stats[d]["total"]` is incremented by the run. -/
def specAttempted (items : List BatchItem) (d : String) : Nat :=
  (items.filter fun it =>
    (pyStrip it.1 != "") && specAttempt it.2 && (itemDomain it.2 == d)).length

/-! Association-list lemmas (Python dict behavior). -/

/-- The keys of an association list, in order. -/
def alKeys {α : Type} (l : List (String × α)) : List String :=
  l.map Prod.fst

theorem alGet_alSet_self {α : Type} (l : List (String × α)) (k : String) (v : α) :
    alGet (alSet l k v) k = some v := by
  induction l with
  | nil => simp [alSet, alGet]
  | cons kv rest ih =>
    obtain ⟨k0, w⟩ := kv
    by_cases hk : k0 = k
    · simp [alSet, hk, alGet]
    · simp [alSet, hk, alGet, ih]

theorem alGet_alSet_ne {α : Type} (l : List (String × α)) (k d : String) (v : α)
    (h : k ≠ d) : alGet (alSet l k v) d = alGet l d := by
  induction l with
  | nil => simp [alSet, alGet, h]
  | cons kv rest ih =>
    obtain ⟨k0, w⟩ := kv
    by_cases hk : k0 = k
    · subst hk
      simp [alSet, alGet, h]
    · simp [alSet, hk, alGet, ih]

theorem mem_alKeys_alSet {α : Type} (l : List (String × α)) (k x : String) (v : α) :
    x ∈ alKeys (alSet l k v) ↔ x ∈ alKeys l ∨ x = k := by
  induction l with
  | nil => simp [alSet, alKeys]
  | cons kv rest ih =>
    obtain ⟨k0, w⟩ := kv
    by_cases hk : k0 = k
    · subst hk
      simp [alSet, alKeys]
      tauto
    · simp [alSet, hk, alKeys] at ih ⊢
      tauto

theorem alKeys_nodup_alSet {α : Type} (l : List (String × α)) (k : String) (v : α)
    (h : (alKeys l).Nodup) : (alKeys (alSet l k v)).Nodup := by
  induction l with
  | nil => simp [alSet, alKeys]
  | cons kv rest ih =>
    obtain ⟨k0, w⟩ := kv
    simp only [alKeys, List.map_cons, List.nodup_cons] at h
    by_cases hk : k0 = k
    · subst hk
      simpa [alSet, alKeys] using h
    · have h2 := ih h.2
      simp only [alSet, hk, if_false, alKeys, List.map_cons, List.nodup_cons]
      refine ⟨?_, h2⟩
      intro hmem
      rcases (mem_alKeys_alSet rest k k0 v).mp hmem with hin | heq
      · exact h.1 hin
      · exact hk heq

theorem alGet_eq_some_iff {α : Type} (l : List (String × α))
    (hn : (alKeys l).Nodup) (d : String) (v : α) :
    alGet l d = some v ↔ (d, v) ∈ l := by
  induction l with
  | nil => simp [alGet]
  | cons kv rest ih =>
    obtain ⟨k0, w⟩ := kv
    simp only [alKeys, List.map_cons, List.nodup_cons] at hn
    by_cases hk : k0 = d
    · subst hk
      simp only [alGet, eq_self_iff_true, if_true, List.mem_cons, Option.some.injEq,
        Prod.mk.injEq, true_and]
      constructor
      · intro h
        exact Or.inl h.symm
      · rintro (h | h)
        · exact h.symm
        · exfalso
          exact hn.1 (by simpa [alKeys] using List.mem_map_of_mem Prod.fst h)
    · simp only [alGet, hk, if_false, List.mem_cons]
      rw [ih hn.2]
      constructor
      · exact Or.inr
      · rintro (h | h)
        · exact absurd (congrArg Prod.fst h).symm (by simpa using hk)
        · exact h

/-! Small facts about the per-URL characterization. -/

theorem specAttempt_of_outcome_some (env : UrlEnv) (f : SavedFile)
    (h : specOutcome env = some f) : specAttempt env = true := by
  unfold specOutcome at h
  unfold specAttempt
  by_cases hv : env.scheme = "" ∨ env.netloc = ""
  · rw [if_pos hv] at h
    exact absurd h (by simp)
  · rw [if_neg hv] at h
    rw [if_neg hv]
    cases hmk : env.mkdirRes with
    | error e => rw [hmk] at h; exact absurd h (by simp)
    | ok u => rfl

theorem specOutcome_none_of_not_attempt (env : UrlEnv)
    (h : specAttempt env = false) : specOutcome env = none := by
  unfold specAttempt at h
  unfold specOutcome
  by_cases hv : env.scheme = "" ∨ env.netloc = ""
  · rw [if_pos hv]
  · rw [if_neg hv] at h
    rw [if_neg hv]
    cases hmk : env.mkdirRes with
    | error e => rfl
    | ok u => rw [hmk] at h; exact absurd h (by simp)

theorem itemDomain_of_attempt (env : UrlEnv) (h : specAttempt env = true) :
    itemDomain env = env.netloc := by
  unfold specAttempt at h
  by_cases hv : env.scheme = "" ∨ env.netloc = ""
  · rw [if_pos hv] at h
    exact absurd h (by simp)
  · unfold itemDomain
    have hne : ¬ env.netloc = "" := fun hn => hv (Or.inr hn)
    rw [if_neg hne]

theorem stepState_of_not_attempt (env : UrlEnv) (st : RunState)
    (h : specAttempt env = false) : stepState env st = st := by
  unfold stepState
  simp [h]

theorem alGet_stepState (env : UrlEnv) (st : RunState) (d : String)
    (h : specAttempt env = true) :
    alGet (stepState env st).stats d =
      if env.netloc = d then
        some ⟨((alGet st.stats d).getD ⟨0, 0⟩).total + 1,
              ((alGet st.stats d).getD ⟨0, 0⟩).success +
                (match specOutcome env with | some _ => 1 | none => 0)⟩
      else alGet st.stats d := by
  unfold stepState
  rw [if_pos h]
  by_cases hd : env.netloc = d
  · rw [if_pos hd]
    subst hd
    cases ho : specOutcome env with
    | none => simp [ho, alGet_alSet_self]
    | some f => simp [ho, alGet_alSet_self]
  · rw [if_neg hd]
    cases ho : specOutcome env with
    | none => simp [ho, alGet_alSet_ne _ _ _ _ hd]
    | some f => simp [ho, alGet_alSet_ne _ _ _ _ hd]

theorem stepState_browserCalls (env : UrlEnv) (st : RunState) :
    (stepState env st).browserEngineCalls = st.browserEngineCalls := by
  unfold stepState
  by_cases h : specAttempt env = true
  · simp [h]
  · simp [h]

theorem downloadVideo_run (env : UrlEnv) (st : RunState) :
    downloadVideo env st = (specOutcome env, stepState env st) := by
  unfold downloadVideo
  rw [downloadVideoE_run]

/-! Unfolding and aggregation lemmas for the batch loop. -/

/-- `downloaded_files` after one non-blank URL: append the stem on success. -/
def dfStep (env : UrlEnv) (df : List (String × List String)) :
    List (String × List String) :=
  match specOutcome env with
  | some f =>
    alSet df (itemDomain env) (((alGet df (itemDomain env)).getD []) ++ [f.stem])
  | none => df

theorem processItems_cons_blank (raw : String) (env : UrlEnv) (rest : List BatchItem)
    (st : RunState) (df : List (String × List String)) (hu : pyStrip raw = "") :
    processItems ((raw, env) :: rest) st df = processItems rest st df := by
  simp [processItems, hu]

theorem processItems_cons_nonblank (raw : String) (env : UrlEnv)
    (rest : List BatchItem) (st : RunState) (df : List (String × List String))
    (hu : ¬ pyStrip raw = "") :
    processItems ((raw, env) :: rest) st df =
      ((processItems rest (stepState env st) (dfStep env df)).1,
       (processItems rest (stepState env st) (dfStep env df)).2.1,
       pyStrip raw :: (processItems rest (stepState env st) (dfStep env df)).2.2) := by
  simp only [processItems, hu, if_false, downloadVideo_run, dfStep]

theorem alGet_dfStep (env : UrlEnv) (df : List (String × List String)) (d : String) :
    alGet (dfStep env df) d =
      match specOutcome env with
      | some f =>
        if itemDomain env = d then some ((alGet df d).getD [] ++ [f.stem])
        else alGet df d
      | none => alGet df d := by
  unfold dfStep
  cases ho : specOutcome env with
  | none => rfl
  | some f =>
    dsimp only
    by_cases hd : itemDomain env = d
    · rw [if_pos hd, hd, alGet_alSet_self]
    · rw [if_neg hd]
      exact alGet_alSet_ne df (itemDomain env) d _ hd

theorem specAttempted_cons (raw : String) (env : UrlEnv) (rest : List BatchItem)
    (d : String) :
    specAttempted ((raw, env) :: rest) d =
      (if (pyStrip raw != "") && specAttempt env && (itemDomain env == d) then 1 else 0)
        + specAttempted rest d := by
  unfold specAttempted
  rw [List.filter_cons]
  by_cases h : ((pyStrip raw != "") && specAttempt env && (itemDomain env == d)) = true
  · simp [h, Nat.add_comm]
  · simp only [Bool.not_eq_true] at h
    simp [h]

theorem specSavedStems_cons (raw : String) (env : UrlEnv) (rest : List BatchItem)
    (d : String) :
    specSavedStems ((raw, env) :: rest) d =
      (if pyStrip raw = "" then []
       else match specOutcome env with
         | some f => if itemDomain env = d then [f.stem] else []
         | none => []) ++ specSavedStems rest d := by
  unfold specSavedStems
  rw [List.filterMap_cons]
  by_cases hu : pyStrip raw = ""
  · simp [hu]
  · simp only [hu, if_false, if_neg hu]
    cases ho : specOutcome env with
    | none => simp
    | some f =>
      by_cases hd : itemDomain env = d
      · simp [hd]
      · simp [hd]

theorem specSucceeded_le_attempted (items : List BatchItem) (d : String) :
    specSucceeded items d ≤ specAttempted items d := by
  induction items with
  | nil => simp [specSucceeded, specSavedStems, specAttempted]
  | cons it rest ih =>
    obtain ⟨raw, env⟩ := it
    rw [specAttempted_cons]
    unfold specSucceeded at ih ⊢
    rw [specSavedStems_cons]
    by_cases hu : pyStrip raw = ""
    · simp only [hu, if_true, List.nil_append]
      exact le_trans ih (Nat.le_add_left _ _)
    · cases ho : specOutcome env with
      | none =>
        simp only [hu, if_false, List.nil_append, ho]
        exact le_trans ih (Nat.le_add_left _ _)
      | some f =>
        by_cases hd : itemDomain env = d
        · have hatt := specAttempt_of_outcome_some env f ho
          have hc : ((pyStrip raw != "") && specAttempt env && (itemDomain env == d))
              = true := by
            simp [hu, hatt, hd]
          rw [hc]
          simp [hu, ho, hd]
          omega
        · simp only [hu, if_false, ho, hd, List.nil_append]
          exact le_trans ih (Nat.le_add_left _ _)

theorem processItems_stats (items : List BatchItem) :
    ∀ (st : RunState) (df : List (String × List String)) (d : String),
      alGet (processItems items st df).1.stats d =
        match alGet st.stats d with
        | some s =>
          some ⟨s.total + specAttempted items d, s.success + specSucceeded items d⟩
        | none =>
          if specAttempted items d = 0 then none
          else some ⟨specAttempted items d, specSucceeded items d⟩ := by
  induction items with
  | nil =>
    intro st df d
    simp only [processItems, specAttempted, specSucceeded, specSavedStems,
      List.filter_nil, List.filterMap_nil, List.length_nil]
    cases h : alGet st.stats d <;> simp
  | cons it rest ih =>
    obtain ⟨raw, env⟩ := it
    intro st df d
    by_cases hu : pyStrip raw = ""
    · rw [processItems_cons_blank _ _ _ _ _ hu, ih st df d]
      have hA : specAttempted ((raw, env) :: rest) d = specAttempted rest d := by
        rw [specAttempted_cons]; simp [hu]
      have hS : specSucceeded ((raw, env) :: rest) d = specSucceeded rest d := by
        unfold specSucceeded; rw [specSavedStems_cons]; simp [hu]
      rw [hA, hS]
    · rw [processItems_cons_nonblank _ _ _ _ _ hu]
      dsimp only
      rw [ih (stepState env st) (dfStep env df) d]
      by_cases hatt : specAttempt env = true
      · rw [alGet_stepState env st d hatt]
        have hdom := itemDomain_of_attempt env hatt
        by_cases hd : env.netloc = d
        · rw [if_pos hd]
          have hA : specAttempted ((raw, env) :: rest) d = 1 + specAttempted rest d := by
            rw [specAttempted_cons]
            have hc : ((pyStrip raw != "") && specAttempt env && (itemDomain env == d))
                = true := by simp [hu, hatt, hdom, hd]
            rw [hc]
            simp
          have hS : specSucceeded ((raw, env) :: rest) d =
              (match specOutcome env with | some _ => 1 | none => 0)
                + specSucceeded rest d := by
            unfold specSucceeded
            rw [specSavedStems_cons]
            cases ho : specOutcome env with
            | none => simp [hu]
            | some f => simp [hu, hdom, hd]; omega
          rw [hA, hS]
          cases hst : alGet st.stats d with
          | some s =>
            simp only [Option.getD_some]
            congr 1
            refine congrArg₂ Stats.mk ?_ ?_ <;> omega
          | none =>
            simp only [Option.getD_none]
            have h0 : ¬ (1 + specAttempted rest d = 0) := by omega
            rw [if_neg h0]
            congr 1
            refine congrArg₂ Stats.mk ?_ ?_ <;> omega
        · rw [if_neg hd]
          have hA : specAttempted ((raw, env) :: rest) d = specAttempted rest d := by
            rw [specAttempted_cons]
            have : ((pyStrip raw != "") && specAttempt env && (itemDomain env == d))
                = false := by simp [hdom, hd]
            rw [this]
            simp
          have hS : specSucceeded ((raw, env) :: rest) d = specSucceeded rest d := by
            unfold specSucceeded
            rw [specSavedStems_cons]
            cases ho : specOutcome env with
            | none => simp [hu]
            | some f => simp [hu, hdom, hd]
          rw [hA, hS]
      · simp only [Bool.not_eq_true] at hatt
        rw [stepState_of_not_attempt env st hatt]
        have ho := specOutcome_none_of_not_attempt env hatt
        have hA : specAttempted ((raw, env) :: rest) d = specAttempted rest d := by
          rw [specAttempted_cons]; simp [hatt]
        have hS : specSucceeded ((raw, env) :: rest) d = specSucceeded rest d := by
          unfold specSucceeded; rw [specSavedStems_cons]; simp [ho]
        rw [hA, hS]

theorem processItems_df (items : List BatchItem) :
    ∀ (st : RunState) (df : List (String × List String)) (d : String),
      alGet (processItems items st df).2.1 d =
        match alGet df d with
        | some fs => some (fs ++ specSavedStems items d)
        | none =>
          if specSavedStems items d = [] then none
          else some (specSavedStems items d) := by
  induction items with
  | nil =>
    intro st df d
    simp only [processItems, specSavedStems, List.filterMap_nil]
    cases h : alGet df d <;> simp
  | cons it rest ih =>
    obtain ⟨raw, env⟩ := it
    intro st df d
    by_cases hu : pyStrip raw = ""
    · rw [processItems_cons_blank _ _ _ _ _ hu, ih st df d]
      have hS : specSavedStems ((raw, env) :: rest) d = specSavedStems rest d := by
        rw [specSavedStems_cons]; simp [hu]
      rw [hS]
    · rw [processItems_cons_nonblank _ _ _ _ _ hu]
      dsimp only
      rw [ih (stepState env st) (dfStep env df) d, alGet_dfStep]
      cases ho : specOutcome env with
      | none =>
        have hS : specSavedStems ((raw, env) :: rest) d = specSavedStems rest d := by
          rw [specSavedStems_cons]
          rw [ho]
          simp [hu]
        rw [hS]
      | some f =>
        dsimp only
        by_cases hd : itemDomain env = d
        · rw [if_pos hd]
          have hS : specSavedStems ((raw, env) :: rest) d =
              f.stem :: specSavedStems rest d := by
            rw [specSavedStems_cons, ho]
            simp [hu, hd]
          rw [hS]
          cases hdf : alGet df d with
          | some fs => simp
          | none => simp
        · rw [if_neg hd]
          have hS : specSavedStems ((raw, env) :: rest) d = specSavedStems rest d := by
            rw [specSavedStems_cons, ho]
            simp [hu, hd]
          rw [hS]

theorem processItems_df_nodup (items : List BatchItem) :
    ∀ (st : RunState) (df : List (String × List String)),
      (alKeys df).Nodup → (alKeys (processItems items st df).2.1).Nodup := by
  induction items with
  | nil => intro st df h; simpa [processItems] using h
  | cons it rest ih =>
    obtain ⟨raw, env⟩ := it
    intro st df h
    by_cases hu : pyStrip raw = ""
    · rw [processItems_cons_blank _ _ _ _ _ hu]
      exact ih st df h
    · rw [processItems_cons_nonblank _ _ _ _ _ hu]
      dsimp only
      refine ih _ _ ?_
      unfold dfStep
      cases specOutcome env with
      | none => exact h
      | some f => exact alKeys_nodup_alSet df _ _ h

theorem processItems_trace (items : List BatchItem) :
    ∀ (st : RunState) (df : List (String × List String)),
      (processItems items st df).2.2 =
        (items.map (fun it => pyStrip it.1)).filter (fun u => u != "") := by
  induction items with
  | nil => intro st df; simp [processItems]
  | cons it rest ih =>
    obtain ⟨raw, env⟩ := it
    intro st df
    by_cases hu : pyStrip raw = ""
    · rw [processItems_cons_blank _ _ _ _ _ hu, ih st df]
      simp [hu, List.filter_cons]
    · rw [processItems_cons_nonblank _ _ _ _ _ hu]
      dsimp only
      rw [ih]
      simp [hu, List.filter_cons]

theorem mem_createTitlesFiles (stats : List (String × Stats))
    (df : List (String × List String)) (hn : (alKeys df).Nodup) (d c : String) :
    (d, c) ∈ createTitlesFiles stats df ↔
      ∃ fs, alGet df d = some fs ∧
        0 < ((alGet stats d).getD ⟨0, 0⟩).total ∧
        ((alGet stats d).getD ⟨0, 0⟩).success = ((alGet stats d).getD ⟨0, 0⟩).total ∧
        c = joinLines fs := by
  unfold createTitlesFiles
  rw [List.mem_filterMap]
  constructor
  · rintro ⟨⟨k, fs⟩, hmem, hg⟩
    dsimp only at hg
    by_cases hcond : 0 < ((alGet stats k).getD ⟨0, 0⟩).total ∧
        ((alGet stats k).getD ⟨0, 0⟩).success = ((alGet stats k).getD ⟨0, 0⟩).total
    · rw [if_pos hcond] at hg
      injection hg with hg
      have hk : k = d := congrArg Prod.fst hg
      have hc : joinLines fs = c := congrArg Prod.snd hg
      subst hk
      exact ⟨fs, (alGet_eq_some_iff df hn k fs).mpr hmem, hcond.1, hcond.2, hc.symm⟩
    · rw [if_neg hcond] at hg
      exact absurd hg (by simp)
  · rintro ⟨fs, hget, h1, h2, hc⟩
    refine ⟨(d, fs), (alGet_eq_some_iff df hn d fs).mp hget, ?_⟩
    dsimp only
    rw [if_pos ⟨h1, h2⟩, hc]

/-! ## Theorems for C1 -/

theorem specOutcome_none_of_unsupported (env : UrlEnv)
    (h : env.ytdlRes = Except.ok none) : specOutcome env = none := by
  unfold specOutcome
  by_cases hv : env.scheme = "" ∨ env.netloc = ""
  · rw [if_pos hv]
  · rw [if_neg hv]
    cases hmk : env.mkdirRes with
    | error e => rfl
    | ok u => rw [h]

/-- C1 is violated by the code: the call site of `attempt_browser_download`
omits the required positional parameter `browser`, so the keyword binding
fails and the call raises `TypeError` before the engine body starts; the
handler in `_download_with_playwright` maps it to `None`.  Hence the
browser engine's body is never entered on any path, and a URL whose
primary attempt reports no file (the unsupported-URL signal included)
always ends with no result. -/
theorem browser_fallback_never_entered :
    kwargsBindOk attemptBrowserDownloadParams playwrightCallKwargs = false ∧
    (∀ (env : UrlEnv) (st : RunState),
      (downloadVideoE env st).2.browserEngineCalls = st.browserEngineCalls) ∧
    (∀ (env : UrlEnv) (st : RunState),
      env.ytdlRes = Except.ok none → (downloadVideoE env st).1 = Except.ok none) := by
  refine ⟨by decide, ?_, ?_⟩
  · intro env st
    rw [downloadVideoE_run]
    exact stepState_browserCalls env st
  · intro env st h
    rw [downloadVideoE_run, specOutcome_none_of_unsupported env h]

/-! ## Theorems for C7 -/

/-- C7: a URL whose `urlparse` result lacks a scheme or a netloc makes
`download_video` return `None` with the state untouched: no directory
created, no primary-engine or browser-engine invocation, and the
`domain_stats` counters exactly as before. -/
theorem invalid_url_no_side_effects :
    ∀ (env : UrlEnv) (st : RunState),
      env.scheme = "" ∨ env.netloc = "" →
      downloadVideoE env st = (Except.ok none, st) := by
  intro env st h
  unfold downloadVideoE downloadVideoTry
  rw [if_pos h]

/-- The C7 theorem at a concrete input: a URL that parses with an empty
scheme. -/
theorem invalid_url_no_side_effects_witness :
    downloadVideoE
      { scheme := "", netloc := "example.com", mkdirRes := Except.ok (),
        ytdlRes := Except.ok none, browserRes := none } freshState =
      (Except.ok none, freshState) :=
  invalid_url_no_side_effects _ freshState (Or.inl rfl)

/-! ## Theorems for C8 -/

/-- C8: `download_video` never lets an exception escape: for every external
behavior (directory setup, sweep, primary attempt, browser attempt, each
free to raise) it produces an `ok` value, and whenever the try block raises
the outer handler yields exactly `None` with the state at the raise
point. -/
theorem download_video_never_propagates :
    ∀ (env : UrlEnv) (st : RunState),
      (∃ v st1, downloadVideoE env st = (Except.ok v, st1)) ∧
      (∀ (e : PyExc) (st1 : RunState),
        downloadVideoTry env st = (Except.error e, st1) →
        downloadVideoE env st = (Except.ok none, st1)) := by
  intro env st
  constructor
  · exact ⟨specOutcome env, stepState env st, downloadVideoE_run env st⟩
  · intro e st1 h
    unfold downloadVideoE
    rw [h]

/-! ## Theorems for C10 -/

/-- C10: `download_videos` evaluates `len(list(urls))` before looping, so a
one-shot generator is exhausted and zero URLs are attempted (state
untouched, no titles written, empty trace), while a list input is
re-iterated: every non-blank URL is processed exactly once, in order. -/
theorem len_list_exhausts_generator :
    ∀ (l : List BatchItem) (st : RunState),
      (downloadVideosRun (PyIterable.pygen l) st).2.2 = [] ∧
      (downloadVideosRun (PyIterable.pygen l) st).1 = st ∧
      (downloadVideosRun (PyIterable.pygen l) st).2.1 = [] ∧
      (downloadVideosRun (PyIterable.pylist l) st).2.2 =
        (l.map (fun it => pyStrip it.1)).filter (fun u => u != "") := by
  intro l st
  refine ⟨rfl, rfl, rfl, ?_⟩
  unfold downloadVideosRun
  dsimp only [iterAfterList]
  exact processItems_trace l st []

/-! ## Theorems for C3 -/

/-- C3: after a batch run from a fresh orchestrator, domain `d` gets a
titles file if and only if its counters show `total > 0` and
`success == total`, and the file's content is exactly the stems of the
files saved for `d`, one per line, newline-terminated (written with
`write_text`, which overwrites).  A domain with a failed URL fails
`success == total` and gets no file. -/
theorem titles_iff_fully_successful :
    ∀ (items : List BatchItem) (d c : String),
      (d, c) ∈ (downloadVideosRun (PyIterable.pylist items) freshState).2.1 ↔
        (0 < specAttempted items d ∧
          specSucceeded items d = specAttempted items d ∧
          c = joinLines (specSavedStems items d)) := by
  intro items d c
  unfold downloadVideosRun
  dsimp only [iterAfterList, iterItems]
  rw [mem_createTitlesFiles _ _
    (processItems_df_nodup items freshState [] (by simp [alKeys]))]
  rw [processItems_df items freshState [] d, processItems_stats items freshState [] d]
  dsimp only [freshState, alGet]
  by_cases hA : specAttempted items d = 0
  · rw [if_pos hA]
    simp [hA]
  · rw [if_neg hA]
    dsimp only [Option.getD_some]
    by_cases hSA : specSucceeded items d = specAttempted items d
    · have hpos : 0 < specAttempted items d := Nat.pos_of_ne_zero hA
      have hne : ¬ specSavedStems items d = [] := by
        intro h0
        have : specSucceeded items d = 0 := by
          unfold specSucceeded
          rw [h0]
          rfl
        omega
      rw [if_neg hne]
      simp [hpos, hSA]
    · by_cases hne : specSavedStems items d = []
      · rw [if_pos hne]
        simp [hSA]
      · rw [if_neg hne]
        simp [hSA]

/-! ## Theorems for C9 -/

/-- A URL for host `a.com` whose primary attempt reports no file (the
browser fallback then also yields none): the attempt fails. -/
def envFailure : UrlEnv :=
  { scheme := "https", netloc := "a.com", mkdirRes := Except.ok (),
    ytdlRes := Except.ok none, browserRes := none }

/-- A URL for host `a.com` whose primary attempt saves a file with stem
`y` that exists on disk: the attempt succeeds. -/
def envSuccess : UrlEnv :=
  { scheme := "https", netloc := "a.com", mkdirRes := Except.ok (),
    ytdlRes := Except.ok (some ⟨"y", true⟩), browserRes := none }

/-- Counterexample to C9 as stated: `domain_stats` lives on the
orchestrator instance and is never reset between `download_videos` runs.
A first run with one failing URL for `a.com` followed by a second run with
one succeeding URL for `a.com` writes no titles file, although the second
run alone attempted 1 and succeeded 1 — the same second run on a fresh
orchestrator does write `titles.txt` with content `y\n`.  So the second
run's decision depends on the first run's counters. -/
theorem stats_persist_across_runs_counterexample :
    (downloadVideosRun (PyIterable.pylist [("https://a.com/y", envSuccess)])
        (downloadVideosRun (PyIterable.pylist [("https://a.com/x", envFailure)])
          freshState).1).2.1 = [] ∧
    (downloadVideosRun (PyIterable.pylist [("https://a.com/y", envSuccess)])
        freshState).2.1 = [("a.com", "y\n")] ∧
    specAttempted [("https://a.com/y", envSuccess)] "a.com" = 1 ∧
    specSucceeded [("https://a.com/y", envSuccess)] "a.com" = 1 := by
  refine ⟨by decide, by decide, by decide, by decide⟩

/-- C9 (amended): the counters accumulate on the orchestrator instance
across consecutive batch runs; after a second run, domain `d`'s titles
file exists iff the second run saved at least one file for `d` (the
`downloaded_files` dict is per-run) and the *cumulative* counters of both
runs satisfy `success == total` with `total > 0`; its content lists the
second run's stems only. -/
theorem titles_decision_uses_cumulative_stats :
    ∀ (items1 items2 : List BatchItem) (d c : String),
      (d, c) ∈ (downloadVideosRun (PyIterable.pylist items2)
          (downloadVideosRun (PyIterable.pylist items1) freshState).1).2.1 ↔
        (specSavedStems items2 d ≠ [] ∧
          c = joinLines (specSavedStems items2 d) ∧
          0 < specAttempted items1 d + specAttempted items2 d ∧
          specSucceeded items1 d + specSucceeded items2 d =
            specAttempted items1 d + specAttempted items2 d) := by
  intro items1 items2 d c
  unfold downloadVideosRun
  dsimp only [iterAfterList, iterItems]
  rw [mem_createTitlesFiles _ _
    (processItems_df_nodup items2 _ [] (by simp [alKeys]))]
  rw [processItems_df items2 _ [] d, processItems_stats items2 _ [] d]
  rw [processItems_stats items1 freshState [] d]
  dsimp only [freshState, alGet]
  have hS1A1 := specSucceeded_le_attempted items1 d
  by_cases hA1 : specAttempted items1 d = 0
  · have hS1 : specSucceeded items1 d = 0 := by omega
    rw [if_pos hA1, hA1, hS1]
    by_cases hA2 : specAttempted items2 d = 0
    · rw [if_pos hA2, hA2]
      simp
    · rw [if_neg hA2]
      dsimp only [Option.getD_some]
      by_cases hne : specSavedStems items2 d = []
      · rw [if_pos hne]
        simp [hne]
      · rw [if_neg hne]
        have hpos : 0 < specAttempted items2 d := Nat.pos_of_ne_zero hA2
        simp only [Option.some.injEq, ne_eq, hne, not_false_iff, true_and]
        constructor
        · rintro ⟨fs, hfs, h1, h2, hc⟩
          subst hfs
          exact ⟨hc, by omega, by omega⟩
        · rintro ⟨hc, h1, h2⟩
          exact ⟨specSavedStems items2 d, rfl, by omega, by omega, hc⟩
  · rw [if_neg hA1]
    dsimp only [Option.getD_some]
    by_cases hne : specSavedStems items2 d = []
    · rw [if_pos hne]
      simp [hne]
    · rw [if_neg hne]
      have hpos : 0 < specAttempted items1 d := Nat.pos_of_ne_zero hA1
      simp only [Option.some.injEq, ne_eq, hne, not_false_iff, true_and]
      constructor
      · rintro ⟨fs, hfs, h1, h2, hc⟩
        subst hfs
        exact ⟨hc, by omega, by omega⟩
      · rintro ⟨hc, h1, h2⟩
        exact ⟨specSavedStems items2 d, rfl, by omega, by omega, hc⟩
